import Mathlib

/-!
Shallow embedding of the TradingSystem repository (C++ headers under
`src/TradingSystem/`) and verification of its natural-language specification.

Modelling conventions:
* C++ `double` prices become `ℚ`; every price handled by the claims lives on
  a dyadic grid on which the C++ `double`/`float` arithmetic is exact, so the
  rational embedding is faithful there.
* C++ `long` counters and quantities become `ℤ` (no overflow is reachable in
  the claims considered).
* `std::unordered_map<string, V>` stores become association lists
  `List (String × V)` with an `insert_or_assign` operation; `operator[]`
  (default-constructing lookup) and `at` (throwing lookup) are modelled
  separately.
* Listener fan-out (`for (l : listeners_) l->ProcessAdd(v);`) is modelled by
  appending `List.replicate n v` to an event log, `n` being the number of
  registered listeners.
* `products.hpp` and `soa.hpp` are not present in the repository snapshot;
  `Bond` (only its product identifier is ever consulted) and the listener
  list are modelled from the spec.
-/

namespace TradingSystem

/-- Side for market data (`market_data_service.hpp`). -/
inductive PricingSide where
  | BID
  | OFFER
deriving DecidableEq, Repr

/-- Trade sides (`trade_booking_service.hpp`). -/
inductive Side where
  | BUY
  | SELL
deriving DecidableEq, Repr

/-- Order types (`execution_order.hpp`). -/
inductive OrderType where
  | FOK
  | IOC
  | MARKET
  | LIMIT
  | STOP
deriving DecidableEq, Repr

/-- Markets (`execution_order.hpp`). -/
inductive Market where
  | BROKERTEC
  | ESPEED
  | CME
deriving DecidableEq, Repr

/-- Modelled from the spec: `products.hpp` is absent from the snapshot.  A
bond product; only the product identifier (CUSIP) is consulted by the code
under verification, so the other catalog fields are omitted. -/
structure Bond where
  productId : String
deriving DecidableEq, Repr

/-- `FetchBond(const string&)` (`utilities.hpp`): builds the `Bond` whose
product identifier is the given CUSIP. -/
def FetchBond (cusip : String) : Bond := ⟨cusip⟩

/-- A market data order with price, quantity, and side
(`market_data_service.hpp`). -/
structure Order where
  price : ℚ
  quantity : ℤ
  side : PricingSide
deriving DecidableEq, Repr

/-- Order book with a bid and offer stack (`market_data_service.hpp`). -/
structure OrderBook where
  product : Bond
  bidStack : List Order
  offerStack : List Order
deriving DecidableEq, Repr

/-! ### Association-list model of `std::unordered_map<string, V>` -/

/-- `map.insert_or_assign(k, v)`: overwrite the mapping when the key is
present, append it otherwise. -/
def insert_or_assign {α : Type} (m : List (String × α)) (k : String) (v : α) :
    List (String × α) :=
  match m with
  | [] => [(k, v)]
  | (k', v') :: rest =>
      if k' = k then (k, v) :: rest else (k', v') :: insert_or_assign rest k v

/-- `map.find(k)` / membership lookup. -/
def mapFind {α : Type} (m : List (String × α)) (k : String) : Option α :=
  match m with
  | [] => none
  | (k', v') :: rest => if k' = k then some v' else mapFind rest k

/-- `map.at(k)`: throwing lookup — `none` models the `std::out_of_range`
exception raised on a missing key. -/
def mapAt {α : Type} (m : List (String × α)) (k : String) : Option α :=
  mapFind m k

/-- `map.operator[](k)`: default-constructing lookup; a missing key is
default-constructed (value `d`, the C++ value-initialized element) and the
read value is returned. -/
def mapBracket {α : Type} (m : List (String × α)) (k : String) (d : α) : α :=
  match mapFind m k with
  | some v => v
  | none => d

/-! ### Pricing (`pricing_service.hpp`) -/

/-- A price object consisting of mid and bid/offer spread
(`pricing_service.hpp`). -/
structure Price where
  product : Bond
  mid : ℚ
  bidOfferSpread : ℚ
deriving DecidableEq, Repr

/-- `PricingService<T>` state: the keyed store `prices_`
(`pricing_service.hpp`).  The listener list is modelled by its size `n`
at the call sites. -/
structure PricingService where
  prices_ : List (String × Price)
deriving Repr

namespace PricingService

/-- `PricingService` constructor: empty store. -/
def init : PricingService := ⟨[]⟩

/-- The value-initialized `Price<T>` produced by `unordered_map::operator[]`
on a missing key (empty product id, zero mid and spread). -/
def cppDefault : Price := ⟨⟨""⟩, 0, 0⟩

/-- `PricingService<T>::GetData` (`pricing_service.hpp:133-135`):
`return prices_[product_id];` — default-constructing lookup. -/
def GetData (s : PricingService) (product_id : String) : Price :=
  mapBracket s.prices_ product_id cppDefault

/-- `PricingService<T>::OnMessage` (`pricing_service.hpp:138-145`): the
method computes the product id and then only loops `listener->ProcessAdd(data)`
over the `n` registered listeners; the store `prices_` is never written.
Returns the new state and the list of `ProcessAdd` calls made. -/
def OnMessage (s : PricingService) (n : ℕ) (data : Price) :
    PricingService × List Price :=
  (s, List.replicate n data)

end PricingService

/-! ### Price streams and AlgoStreaming
(`price_stream.hpp`, `algo_streaming_service.hpp`) -/

/-- A price stream order with price and visible/hidden quantity
(`price_stream.hpp`). -/
structure PriceStreamOrder where
  price : ℚ
  visibleQuantity : ℤ
  hiddenQuantity : ℤ
  side : PricingSide
deriving DecidableEq, Repr

/-- Price stream with a two-way market (`price_stream.hpp`). -/
structure PriceStream where
  product : Bond
  bidOrder : PriceStreamOrder
  offerOrder : PriceStreamOrder
deriving DecidableEq, Repr

/-- Wrapper for `PriceStream` used by `AlgoStreamingService`
(`algo_streaming_service.hpp`). -/
structure AlgoStream where
  price_stream_ : PriceStream
deriving DecidableEq, Repr

/-- `AlgoStreamingService<T>` state (`algo_streaming_service.hpp`): keyed
store `algo_streams_` and the tick counter `count_`. -/
structure AlgoStreamingService where
  algo_streams_ : List (String × AlgoStream)
  count_ : ℤ
deriving Repr

namespace AlgoStreamingService

/-- `AlgoStreamingService` constructor (`algo_streaming_service.hpp:104-107`):
`count_ = 0`, empty store. -/
def init : AlgoStreamingService := ⟨[], 0⟩

/-- `AlgoStreamingService<T>::AlgoPublishPrice`
(`algo_streaming_service.hpp:146-168`).  Computes bid/offer prices from mid
and spread, alternates visible size `((count_++) % 2 + 1) * 1000000`,
doubles it for the hidden size, stores the built `AlgoStream` under the
product id, and fans it out to every listener.  Returns the new state and
the emitted stream (each registered listener receives exactly this value). -/
def AlgoPublishPrice (s : AlgoStreamingService) (price : Price) :
    AlgoStreamingService × AlgoStream :=
  let product := price.product
  let product_id := product.productId
  let mid := price.mid
  let spread := price.bidOfferSpread
  let bid_price := mid - spread / 2
  let offer_price := mid + spread / 2
  let visible_quantity : ℤ := (s.count_ % 2 + 1) * 1000000
  let hidden_quantity : ℤ := visible_quantity * 2
  let bid_order : PriceStreamOrder := ⟨bid_price, visible_quantity, hidden_quantity, .BID⟩
  let offer_order : PriceStreamOrder := ⟨offer_price, visible_quantity, hidden_quantity, .OFFER⟩
  let algo_stream : AlgoStream := ⟨⟨product, bid_order, offer_order⟩⟩
  (⟨insert_or_assign s.algo_streams_ product_id algo_stream, s.count_ + 1⟩,
   algo_stream)

/-- A run of `AlgoPublishPrice` over a sequence of inbound prices, collecting
the emitted `AlgoStream`s in order. -/
def runPublish (s : AlgoStreamingService) : List Price →
    AlgoStreamingService × List AlgoStream
  | [] => (s, [])
  | p :: ps =>
      (((s.AlgoPublishPrice p).1.runPublish ps).1,
       (s.AlgoPublishPrice p).2 :: ((s.AlgoPublishPrice p).1.runPublish ps).2)

/-- The `AlgoStream` that `AlgoPublishPrice` emits when the tick counter is
`c`: two-sided quote around the mid, visible size `(c % 2 + 1) · 1000000`,
hidden size twice that. -/
def emitAt (c : ℤ) (p : Price) : AlgoStream :=
  ⟨⟨p.product,
    ⟨p.mid - p.bidOfferSpread / 2, (c % 2 + 1) * 1000000,
     (c % 2 + 1) * 1000000 * 2, .BID⟩,
    ⟨p.mid + p.bidOfferSpread / 2, (c % 2 + 1) * 1000000,
     (c % 2 + 1) * 1000000 * 2, .OFFER⟩⟩⟩

end AlgoStreamingService

/-! ### GUI service (`gui_service.hpp`) -/

/-- `GUIService<T>` state (`gui_service.hpp`): keyed store `guis_`, the
throttle (constructor sets 300) and the last-emission millisecond record
`millisec_` (constructor sets 0).  The `gui.txt` sink is modelled as the
list of written lines, each carrying the emission-time reading and the
price written. -/
structure GUIService where
  guis_ : List (String × Price)
  throttle_ : ℤ
  millisec_ : ℤ
deriving Repr

/-- One line of `gui.txt`: the millisecond reading at which it was written
and the price fields written. -/
structure GuiLine where
  emitMs : ℤ
  data : Price
deriving Repr

namespace GUIService

/-- `GUIService` constructor (`gui_service.hpp:105-108`):
`throttle_(300), millisec_(0)`, empty store. -/
def init : GUIService := ⟨[], 300, 0⟩

/-- The wrap-around loop of `GUIConnector<T>::Publish`
(`gui_service.hpp:178`): `while (millisec_now < millisec) millisec_now += 1000;`. -/
def normalizeMs (millisec_now millisec : ℤ) : ℤ :=
  if millisec_now < millisec then normalizeMs (millisec_now + 1000) millisec
  else millisec_now
termination_by (millisec - millisec_now).toNat
decreasing_by
  omega

/-- `GUIConnector<T>::Publish` (`gui_service.hpp:172-193`).  Reads the
throttle and the last-emission record, obtains the current millisecond
reading (`GetMillisecond()` is absent from the snapshot; modelled from the
spec as an input reading `millisec_now`), normalizes it with the wrap-around
loop, and when `millisec_now - millisec >= throttle` records the new
emission time and appends one line to `gui.txt`. -/
def ConnectorPublish (s : GUIService) (millisec_now : ℤ) (data : Price)
    (log : List GuiLine) : GUIService × List GuiLine :=
  let throttle := s.throttle_
  let millisec := s.millisec_
  let now := normalizeMs millisec_now millisec
  if now - millisec ≥ throttle then
    ({ s with millisec_ := now }, log ++ [⟨now, data⟩])
  else
    (s, log)

/-- `GUIService<T>::OnMessage` (`gui_service.hpp:122-132`): insert-or-assign
the price into `guis_` under the product id, then forward to the output
connector's `Publish` (which may drop the write). -/
def OnMessage (s : GUIService) (millisec_now : ℤ) (data : Price)
    (log : List GuiLine) : GUIService × List GuiLine :=
  let product_id := data.product.productId
  let s1 : GUIService := { s with guis_ := insert_or_assign s.guis_ product_id data }
  ConnectorPublish s1 millisec_now data log

/-- `GUIService<T>::GetData` (`gui_service.hpp:117-119`):
`return guis_[product_id];`. -/
def GetData (s : GUIService) (product_id : String) : Price :=
  mapBracket s.guis_ product_id PricingService.cppDefault

/-- A run of `OnMessage` over a sequence of (reading, price) events. -/
def run (s : GUIService) (log : List GuiLine) :
    List (ℤ × Price) → GUIService × List GuiLine
  | [] => (s, log)
  | (m, p) :: evs =>
      run (s.OnMessage m p log).1 (s.OnMessage m p log).2 evs

end GUIService

/-! ### Best bid/offer (`market_data_service.hpp:258-281`) -/

/-- The bid-side scan of `OrderBook<T>::GetBidOffer`: keep the order with the
strictly greatest price seen so far (first occurrence wins ties). -/
def highestBidFrom (best : Order) : List Order → Order
  | [] => best
  | o :: rest => highestBidFrom (if o.price > best.price then o else best) rest

/-- The offer-side scan of `OrderBook<T>::GetBidOffer`: keep the order with
the strictly least price seen so far (first occurrence wins ties). -/
def lowestOfferFrom (best : Order) : List Order → Order
  | [] => best
  | o :: rest => lowestOfferFrom (if o.price < best.price then o else best) rest

/-- `OrderBook<T>::GetBidOffer` (`market_data_service.hpp:258-281`): linear
scans starting from `bidStack[0]` and `offerStack[0]`.  The C++ indexes the
first element unconditionally, so an empty stack is undefined behavior;
`none` marks that case. -/
def OrderBook.GetBidOffer (b : OrderBook) : Option (Order × Order) :=
  match b.bidStack, b.offerStack with
  | bh :: bt, oh :: ot => some (highestBidFrom bh bt, lowestOfferFrom oh ot)
  | _, _ => none

/-! ### Execution orders and AlgoExecutionService
(`execution_order.hpp`, `algo_execution_service.hpp`) -/

/-- An execution order (`execution_order.hpp`).  Quantities are stored as
`double` in the C++ but read back through `long` getters; all quantities in
the claims are integral, so they are carried as `ℤ`. -/
structure ExecutionOrder where
  product : Bond
  side : PricingSide
  orderId : String
  orderType : OrderType
  price : ℚ
  visibleQuantity : ℤ
  hiddenQuantity : ℤ
  parentOrderId : String
  isChildOrder : Bool
deriving DecidableEq, Repr

/-- Wrapper of `ExecutionOrder` used by `AlgoExecutionService`
(`algo_execution_service.hpp`). -/
structure AlgoExecutionOrder where
  order_ : ExecutionOrder
  market_ : Market
deriving DecidableEq, Repr

/-- `AlgoExecutionService<T>` state (`algo_execution_service.hpp`): keyed
store, spread threshold `spread_` (constructor sets `1/128`) and the
alternation counter `execution_count_` (constructor sets `0`). -/
structure AlgoExecutionService where
  algo_execution_orders_ : List (String × AlgoExecutionOrder)
  spread_ : ℚ
  execution_count_ : ℤ
deriving Repr

namespace AlgoExecutionService

/-- `AlgoExecutionService` constructor (`algo_execution_service.hpp:118-120`):
`spread_(1. / 128.), execution_count_(0)`, empty store. -/
def init : AlgoExecutionService := ⟨[], 1 / 128, 0⟩

/-- `AlgoExecutionService<T>::AlgoExecute`
(`algo_execution_service.hpp:160-198`).  Reads the best bid/offer of the
book; when `offer_price - bid_price <= spread_` it picks the side by the
parity of `execution_count_`, increments the counter, builds the
`AlgoExecutionOrder` (MARKET, empty ids, hidden quantity 0, non-child) and
fans it out to every listener; otherwise nothing happens.  Returns the new
state and the emitted order, `none` when no emission occurred.  When a stack
of the book is empty the C++ scan is undefined behavior; that case also
returns the state unchanged here and is excluded by hypothesis in the
theorems. -/
def AlgoExecute (s : AlgoExecutionService) (order_book : OrderBook)
    (market : Market := .BROKERTEC) :
    AlgoExecutionService × Option AlgoExecutionOrder :=
  let product := order_book.product
  let order_id : String := ""
  match order_book.GetBidOffer with
  | none => (s, none)
  | some (bid_order, offer_order) =>
      let bid_price := bid_order.price
      let bid_quantity := bid_order.quantity
      let offer_price := offer_order.price
      let offer_quantity := offer_order.quantity
      if offer_price - bid_price ≤ s.spread_ then
        let (price, quantity, side) :=
          if s.execution_count_ % 2 ≠ 0 then
            (offer_price, offer_quantity, PricingSide.OFFER)
          else
            (bid_price, bid_quantity, PricingSide.BID)
        let algo_execution_order : AlgoExecutionOrder :=
          ⟨⟨product, side, order_id, .MARKET, price, quantity, 0, "", false⟩,
           market⟩
        ({ s with execution_count_ := s.execution_count_ + 1 },
         some algo_execution_order)
      else
        (s, none)

end AlgoExecutionService

/-! ### Market data service (`market_data_service.hpp`) -/

/-- `MarketDataService<T>` state: keyed store `order_books_` and the
configured `book_depth_` (constructor sets 10). -/
structure MarketDataService where
  order_books_ : List (String × OrderBook)
  book_depth_ : ℕ
deriving Repr

namespace MarketDataService

/-- `MarketDataService` constructor (`market_data_service.hpp:283-284`):
empty store, `book_depth_(10)`. -/
def init : MarketDataService := ⟨[], 10⟩

/-- `MarketDataService<T>::GetData` (`market_data_service.hpp:291-294`):
`return order_books_.at(product_id);` — a missing key raises
`std::out_of_range`, modelled by `none`. -/
def GetData (s : MarketDataService) (product_id : String) : Option OrderBook :=
  mapAt s.order_books_ product_id

/-- `MarketDataService<T>::OnMessage` (`market_data_service.hpp:296-306`):
insert-or-assign the book under its product id, then `ProcessAdd` to each of
the `n` listeners. -/
def OnMessage (s : MarketDataService) (n : ℕ) (book : OrderBook) :
    MarketDataService × List OrderBook :=
  let product_id := book.product.productId
  ({ s with order_books_ := insert_or_assign s.order_books_ product_id book },
   List.replicate n book)

end MarketDataService

/-- One parsed line of `marketdata.txt`
(`MarketDataConnector<T>::Subscribe`, `market_data_service.hpp:414-420`). -/
structure DepthRecord where
  product_id : String
  price : ℚ
  quantity : ℤ
  side : PricingSide
deriving DecidableEq, Repr

namespace MarketDataConnector

/-- The body of the `while (getline…)` loop of
`MarketDataConnector<T>::Subscribe` (`market_data_service.hpp:396-444`),
carrying the accumulation buffers and the window counter; returns the books
handed to `service_->OnMessage`, in order.  `read_lines = book_depth << 1`. -/
def SubscribeLoop (read_lines : ℕ) (bid_stack offer_stack : List Order)
    (order_count : ℕ) : List DepthRecord → List OrderBook
  | [] => []
  | r :: rest =>
      let order : Order := ⟨r.price, r.quantity, r.side⟩
      let bid_stack' :=
        if r.side = .BID then bid_stack ++ [order] else bid_stack
      let offer_stack' :=
        if r.side = .BID then offer_stack else offer_stack ++ [order]
      let order_count' := order_count + 1
      if order_count' = read_lines then
        OrderBook.mk (FetchBond r.product_id) bid_stack' offer_stack' ::
          SubscribeLoop read_lines [] [] 0 rest
      else
        SubscribeLoop read_lines bid_stack' offer_stack' order_count' rest

/-- `MarketDataConnector<T>::Subscribe` (`market_data_service.hpp:396-444`)
over an already-parsed record list: start with empty buffers and counter 0
and `read_lines = book_depth << 1`. -/
def Subscribe (book_depth : ℕ) (records : List DepthRecord) :
    List OrderBook :=
  SubscribeLoop (book_depth * 2) [] [] 0 records

end MarketDataConnector

/-- The `Order` built from one parsed depth record
(`market_data_service.hpp:420`). -/
def toOrder (r : DepthRecord) : Order := ⟨r.price, r.quantity, r.side⟩

/-- The orders a record window pushes onto the bid stack: the `BID` records,
in file order. -/
def bidOrders : List DepthRecord → List Order
  | [] => []
  | r :: rest =>
      if r.side = .BID then toOrder r :: bidOrders rest else bidOrders rest

/-- The orders a record window pushes onto the offer stack: the non-`BID`
records, in file order. -/
def offerOrders : List DepthRecord → List Order
  | [] => []
  | r :: rest =>
      if r.side = .BID then offerOrders rest else toOrder r :: offerOrders rest

/-- The product id in scope when a book is emitted: the one parsed from the
last record of the window (`market_data_service.hpp:432`). -/
def lastProductId (rs : List DepthRecord) : String :=
  match rs.getLast? with
  | some r => r.product_id
  | none => ""

/-- The order book `Subscribe` emits for a full window of records. -/
def mkBook (chunk : List DepthRecord) : OrderBook :=
  ⟨FetchBond (lastProductId chunk), bidOrders chunk, offerOrders chunk⟩

/-- The successive full windows of `R` records of an input list (a trailing
partial window emits no book and is dropped). -/
def fullChunks (R : ℕ) (l : List DepthRecord) : List (List DepthRecord) :=
  if 0 < R ∧ R ≤ l.length then
    l.take R :: fullChunks R (l.drop R)
  else []
termination_by l.length
decreasing_by
  simp only [List.length_drop]
  omega

/-- A sample `marketdata.txt` window: ten `BID` records followed by ten
`OFFER` records for one product. -/
def C1records : List DepthRecord :=
  List.replicate 10 ⟨"91282CFX4", 100, 1000000, .BID⟩ ++
    List.replicate 10 ⟨"91282CFX4", 101, 1000000, .OFFER⟩

/-- The single order book `Subscribe` emits for `C1records` at the default
book depth 10. -/
def C1emitted : OrderBook :=
  OrderBook.mk (FetchBond "91282CFX4")
    (List.replicate 10 ⟨100, 1000000, .BID⟩)
    (List.replicate 10 ⟨101, 1000000, .OFFER⟩)

/-! ### Trade booking (`trade_booking_service.hpp`) -/

/-- Trade object (`trade_booking_service.hpp`). -/
structure Trade where
  product : Bond
  tradeId : String
  price : ℚ
  book : String
  quantity : ℤ
  side : Side
deriving DecidableEq, Repr

namespace ExecutionToTradeBookingListener

/-- `ExecutionToTradeBookingListener<T>::ProcessAdd`
(`trade_booking_service.hpp:287-324`): pre-increment the counter, invert the
side (`BID → SELL`, `OFFER → BUY`), pick the book by `count_ % 3`
(`0 → TRSY1`, `1 → TRSY2`, `2 → TRSY3`), sum visible and hidden quantities,
and synthesize the trade with `tradeId = orderId`; the trade is then sent to
`OnMessage` (store + fan-out) and `BookTrade` (fan-out).  Returns the new
counter and the synthesized trade. -/
def ProcessAdd (count_ : ℤ) (data : ExecutionOrder) : ℤ × Trade :=
  let count' := count_ + 1
  let product := data.product
  let pricing_side := data.side
  let order_id := data.orderId
  let price := data.price
  let visible_quantity := data.visibleQuantity
  let hidden_quantity := data.hiddenQuantity
  let side : Side := if pricing_side = .BID then .SELL else .BUY
  let book : String :=
    if count' % 3 = 0 then "TRSY1"
    else if count' % 3 = 1 then "TRSY2"
    else if count' % 3 = 2 then "TRSY3"
    else ""
  let quantity := visible_quantity + hidden_quantity
  (count', Trade.mk product order_id price book quantity side)

/-- A run of `ProcessAdd` over a sequence of execution orders, collecting the
synthesized trades in order.  The listener constructor
(`trade_booking_service.hpp:285`) starts `count_(0)`. -/
def runProcessAdd (count_ : ℤ) : List ExecutionOrder → ℤ × List Trade
  | [] => (count_, [])
  | d :: ds =>
      ((runProcessAdd (ProcessAdd count_ d).1 ds).1,
       (ProcessAdd count_ d).2 :: (runProcessAdd (ProcessAdd count_ d).1 ds).2)

end ExecutionToTradeBookingListener

/-- `TradeBookingService<T>::GetData` (`trade_booking_service.hpp:208-210`):
`return trades_.at(product_id);` — throwing lookup, `none` models the raised
`std::out_of_range`. -/
def TradeBookingService.GetData (trades_ : List (String × Trade))
    (product_id : String) : Option Trade :=
  mapAt trades_ product_id

/-- `ExecutionService<T>::GetData` (`execution_service.hpp:91-93`):
`return execution_orders_.at(product_id);` — throwing lookup. -/
def ExecutionService.GetData (execution_orders_ : List (String × ExecutionOrder))
    (product_id : String) : Option ExecutionOrder :=
  mapAt execution_orders_ product_id

/-! ### Inquiry service (`inquiry_service.hpp`) -/

/-- Inquiry states (`inquiry_service.hpp`). -/
inductive InquiryState where
  | RECEIVED
  | QUOTED
  | DONE
  | REJECTED
  | CUSTOMER_REJECTED
deriving DecidableEq, Repr

/-- Inquiry object (`inquiry_service.hpp`). -/
structure Inquiry where
  inquiryId : String
  product : Bond
  side : Side
  quantity : ℤ
  price : ℚ
  state : InquiryState
deriving DecidableEq, Repr

/-- `InquiryService<T>` state: the keyed store `inquiries_`. -/
structure InquiryService where
  inquiries_ : List (String × Inquiry)
deriving Repr

namespace InquiryService

/-- Termination rank for the bounded `OnMessage`/`Publish` self-loop: only a
`RECEIVED` inquiry triggers a re-entry. -/
def stateRank : InquiryState → ℕ
  | .RECEIVED => 1
  | _ => 0

mutual

/-- `InquiryService<T>::OnMessage` (`inquiry_service.hpp:189-209`).
`RECEIVED`: store the inquiry by id and hand it to `connector_->Publish`.
`QUOTED`: set the state to `DONE`, store, and `ProcessAdd` to each of the
`n` listeners.  Any other state: no-op.  Returns the new store, the number
of re-entries into `OnMessage` performed beneath this call, and the list of
`ProcessAdd` calls made. -/
def OnMessage (s : InquiryService) (n : ℕ) (data : Inquiry) :
    InquiryService × ℕ × List Inquiry :=
  match data.state with
  | .RECEIVED =>
      let s1 : InquiryService :=
        ⟨insert_or_assign s.inquiries_ data.inquiryId data⟩
      Publish s1 n data
  | .QUOTED =>
      let data' := { data with state := .DONE }
      (⟨insert_or_assign s.inquiries_ data'.inquiryId data'⟩, 0,
       List.replicate n data')
  | .DONE => (s, 0, [])
  | .REJECTED => (s, 0, [])
  | .CUSTOMER_REJECTED => (s, 0, [])
termination_by 2 * stateRank data.state + 1
decreasing_by
  simp only [stateRank]
  omega

/-- `InquiryConnector<T>::Publish` (`inquiry_service.hpp:252-260`): when the
inquiry is in state `RECEIVED`, rewrite it to `QUOTED` and re-enter the
service through `Subscribe(Inquiry&)` → `OnMessage`; otherwise do nothing.
The middle component counts the re-entries into `OnMessage`. -/
def Publish (s : InquiryService) (n : ℕ) (data : Inquiry) :
    InquiryService × ℕ × List Inquiry :=
  if data.state = .RECEIVED then
    let data' := { data with state := .QUOTED }
    let (s', k, calls) := OnMessage s n data'
    (s', k + 1, calls)
  else
    (s, 0, [])
termination_by 2 * stateRank data.state
decreasing_by
  rename_i hrec
  simp only [hrec, stateRank]
  omega

end

/-- The value-initialized `Inquiry<T>` produced by
`unordered_map::operator[]` on a missing key. -/
def cppDefault : Inquiry := ⟨"", ⟨""⟩, .BUY, 0, 0, .RECEIVED⟩

/-- `InquiryService<T>::GetData` (`inquiry_service.hpp:183-186`):
`return inquiries_[key];` — default-constructing lookup. -/
def GetData (s : InquiryService) (key : String) : Inquiry :=
  mapBracket s.inquiries_ key cppDefault

end InquiryService

/-! ### Price notation codec (`utilities.hpp:29-73`)

The two `ConvertPrice` overloads operate on `float`/`double`.  Every
intermediate value they produce on the `1/256` grid in `[99, 101]` is a
dyadic rational with at most 15 significand bits, hence exactly
representable in `float`; the embedding therefore carries prices as `ℚ`,
on which the C++ arithmetic is bit-identical over the claimed domain.
C++ strings are carried as `List Char`. -/

/-- The C++ `int(x)` cast on a floating value: truncation toward zero. -/
def cppIntCast (q : ℚ) : ℤ :=
  if q < 0 then -(⌊-q⌋) else ⌊q⌋

/-- `std::to_string(int)`: decimal notation, leading `-` when negative. -/
def to_string (i : ℤ) : List Char :=
  if i < 0 then '-' :: Nat.toDigits 10 (-i).toNat else Nat.toDigits 10 i.toNat

/-- Digit-folding core of `std::stoi`: consume the leading run of decimal
digits. -/
def stoiNat : List Char → ℕ → ℕ
  | [], acc => acc
  | c :: rest, acc =>
      if c.isDigit then stoiNat rest (acc * 10 + (c.toNat - '0'.toNat))
      else acc

/-- `std::stoi`: optional leading minus sign, then the leading digit run. -/
def stoi (s : List Char) : ℤ :=
  match s with
  | '-' :: rest => -(stoiNat rest 0 : ℤ)
  | _ => (stoiNat s 0 : ℤ)

/-- `std::string::find(char)`: index of the first occurrence (the not-found
case is never exercised on the claimed inputs). -/
def find (s : List Char) (c : Char) : ℕ :=
  match s with
  | [] => 0
  | c0 :: rest => if c0 = c then 0 else 1 + find rest c

/-- `std::string::substr(pos, len)`. -/
def substr (s : List Char) (pos len : ℕ) : List Char :=
  (s.drop pos).take len

/-- `ConvertPrice(const string&)` (`utilities.hpp:29-47`): parse
`"aaa-bbc"` as `aaa + bb/32 + c/256`, a trailing `'+'` standing for
`1/64`.  Indexing `str_price[delimiter_pos + 3]` past the end is modelled by
the null character, matching `operator[]` at `size()`. -/
def ConvertPriceFromString (str_price : List Char) : ℚ :=
  let delimiter_pos := find str_price '-'
  let res : ℚ := (stoi (substr str_price 0 delimiter_pos) : ℚ)
  let res := res + (stoi (substr str_price (delimiter_pos + 1) 2) : ℚ) / 32
  let last_char := str_price.getD (delimiter_pos + 3) (Char.ofNat 0)
  if last_char = '+' then res + 1 / 64
  else res + ((last_char.toNat : ℤ) - ('0'.toNat : ℤ) : ℚ) / 256

/-- `ConvertPrice(float)` (`utilities.hpp:49-73`): emit the integer part,
`'-'`, the zero-padded count of 32nds, and the count of 8ths-of-a-32nd with
`4` written as `'+'`. -/
def ConvertPriceFromNumber (f_price : ℚ) : List Char :=
  let integer := cppIntCast f_price
  let res := to_string integer ++ ['-']
  let f_price := f_price - (integer : ℚ)
  let f_price := f_price * 32
  let integer := cppIntCast f_price
  let res := res ++ (if integer < 10 then ['0'] else [])
  let res := res ++ to_string integer
  let f_price := f_price - (integer : ℚ)
  let f_price := f_price * 8
  let integer := cppIntCast f_price
  let res := res ++ (if integer = 4 then ['+'] else to_string integer)
  res

/-- A concrete one-level order book (bid 100, offer 100, so the spread is
0), used as a sample input. -/
def C2book : OrderBook :=
  OrderBook.mk ⟨"91282CFX4"⟩ [⟨100, 3000000, .BID⟩] [⟨100, 2000000, .OFFER⟩]

/-! ## Store lemmas -/

theorem mapFind_insert_or_assign_self {α : Type} (m : List (String × α))
    (k : String) (v : α) : mapFind (insert_or_assign m k v) k = some v := by
  induction m with
  | nil => simp [insert_or_assign, mapFind]
  | cons hd tl ih =>
      obtain ⟨k0, v0⟩ := hd
      by_cases h : k0 = k <;> simp [insert_or_assign, mapFind, h, ih]

theorem insert_or_assign_insert_or_assign_self {α : Type}
    (m : List (String × α)) (k : String) (v w : α) :
    insert_or_assign (insert_or_assign m k v) k w = insert_or_assign m k w := by
  induction m with
  | nil => simp [insert_or_assign]
  | cons hd tl ih =>
      obtain ⟨k0, v0⟩ := hd
      by_cases h : k0 = k <;> simp [insert_or_assign, h, ih]

/-! ## C3: PricingService::OnMessage and its keyed store -/

/-- C3 counterexample: `PricingService<T>::OnMessage` does **not**
insert-or-assign the delivered price into `prices_`.  After delivering a
price for product `91282CFX4` to a fresh service, the store is still empty
and a lookup of that product id finds nothing, contradicting the claim that
the price is inserted under the product's id. -/
theorem C3_counterexample :
    (PricingService.init.OnMessage 1 ⟨⟨"91282CFX4"⟩, 100, 0⟩).1.prices_ = [] ∧
    mapFind
      (PricingService.init.OnMessage 1 ⟨⟨"91282CFX4"⟩, 100, 0⟩).1.prices_
      "91282CFX4" = none :=
  ⟨rfl, rfl⟩

/-- C3 (amended): for every Price delivered to `PricingService::OnMessage`,
the service leaves its keyed store `prices_` (and its whole state) unchanged
and forwards the price to every registered listener via `ProcessAdd`; it is
the store update, not the listener fan-out, that is suppressed. -/
theorem C3_pricing_onmessage_frame (s : PricingService) (n : ℕ)
    (data : Price) :
    (s.OnMessage n data).1 = s ∧
    (s.OnMessage n data).2 = List.replicate n data :=
  ⟨rfl, rfl⟩

/-! ## C10: GUIService::OnMessage always updates the store -/

/-- C10: for every Price delivered to `GUIService::OnMessage`, the keyed
store `guis_` is updated by insert-or-assign under the product id
unconditionally — whatever the clock reading `m` (hence whether or not the
throttle drops the `gui.txt` write) — and `GetData` then returns exactly the
delivered price. -/
theorem C10_gui_store_unconditional (s : GUIService) (m : ℤ) (data : Price)
    (log : List GuiLine) :
    ((s.OnMessage m data log).1).guis_ =
      insert_or_assign s.guis_ data.product.productId data ∧
    GUIService.GetData (s.OnMessage m data log).1 data.product.productId =
      data := by
  have hstore : ((s.OnMessage m data log).1).guis_ =
      insert_or_assign s.guis_ data.product.productId data := by
    simp only [GUIService.OnMessage, GUIService.ConnectorPublish]
    split <;> rfl
  refine ⟨hstore, ?_⟩
  unfold GUIService.GetData
  rw [hstore]
  simp [mapBracket, mapFind_insert_or_assign_self]

/-! ## C2: AlgoExecutionService::AlgoExecute spread gating -/

/-- C2: for every order book handed to `AlgoExecutionService::AlgoExecute`
(with non-empty stacks, witnessed by a successful best-bid/offer scan), an
`AlgoExecutionOrder` is emitted to the listeners iff
`best offer price − best bid price ≤ 1/128` (the `spread_` the constructor
configures); when no emission occurs the whole state — in particular the
invocation counter `execution_count_` and the stored orders — is
unchanged. -/
theorem C2_algo_execution_gating (s : AlgoExecutionService)
    (book : OrderBook) (market : Market) (bid offer : Order)
    (hbo : book.GetBidOffer = some (bid, offer))
    (hs : s.spread_ = 1 / 128) :
    (((s.AlgoExecute book market).2).isSome ↔
      offer.price - bid.price ≤ 1 / 128) ∧
    ((s.AlgoExecute book market).2 = none →
      (s.AlgoExecute book market).1 = s) := by
  simp only [AlgoExecutionService.AlgoExecute, hbo, hs]
  by_cases hc : offer.price - bid.price ≤ 1 / 128
  · simp only [if_pos hc]
    exact ⟨iff_of_true (by simp) hc, by simp⟩
  · simp only [if_neg hc]
    exact ⟨iff_of_false (by simp) hc, by simp⟩

/-- C2 witness: on `C2book` the best-bid/offer scan succeeds, the configured
spread is `1/128`, and the theorem applies. -/
theorem C2_algo_execution_gating_witness :
    C2book.GetBidOffer =
      some (⟨100, 3000000, .BID⟩, ⟨100, 2000000, .OFFER⟩) ∧
    AlgoExecutionService.init.spread_ = 1 / 128 ∧
    ((((AlgoExecutionService.init.AlgoExecute C2book .BROKERTEC).2).isSome ↔
        (⟨100, 2000000, .OFFER⟩ : Order).price -
          (⟨100, 3000000, .BID⟩ : Order).price ≤ 1 / 128) ∧
      ((AlgoExecutionService.init.AlgoExecute C2book .BROKERTEC).2 = none →
        (AlgoExecutionService.init.AlgoExecute C2book .BROKERTEC).1 =
          AlgoExecutionService.init)) :=
  ⟨rfl, rfl,
   C2_algo_execution_gating AlgoExecutionService.init C2book .BROKERTEC
     ⟨100, 3000000, .BID⟩ ⟨100, 2000000, .OFFER⟩ rfl rfl⟩

/-! ## C9: AlgoStreamingService quantity alternation -/

theorem AlgoPublishPrice_snd (s : AlgoStreamingService) (p : Price) :
    (s.AlgoPublishPrice p).2 = AlgoStreamingService.emitAt s.count_ p := rfl

theorem AlgoPublishPrice_fst_count (s : AlgoStreamingService) (p : Price) :
    (s.AlgoPublishPrice p).1.count_ = s.count_ + 1 := rfl

theorem runPublish_count (ps : List Price) :
    ∀ s : AlgoStreamingService,
      (s.runPublish ps).1.count_ = s.count_ + ps.length := by
  induction ps with
  | nil => intro s; simp [AlgoStreamingService.runPublish]
  | cons p tl ih =>
      intro s
      have h := ih (s.AlgoPublishPrice p).1
      rw [AlgoPublishPrice_fst_count] at h
      simp only [AlgoStreamingService.runPublish, h, List.length_cons]
      push_cast
      ring

theorem runPublish_get (ps : List Price) :
    ∀ (s : AlgoStreamingService) (i : ℕ) (p : Price), ps.get? i = some p →
      (s.runPublish ps).2.get? i =
        some (AlgoStreamingService.emitAt (s.count_ + i) p) := by
  induction ps with
  | nil => intro s i p hp; simp at hp
  | cons q tl ih =>
      intro s i p hp
      cases i with
      | zero =>
          simp only [List.get?_cons_zero, Option.some.injEq] at hp
          subst hp
          simp [AlgoStreamingService.runPublish, AlgoPublishPrice_snd]
      | succ i =>
          simp only [List.get?_cons_succ] at hp
          have h := ih (s.AlgoPublishPrice q).1 i p hp
          rw [AlgoPublishPrice_fst_count] at h
          simp only [AlgoStreamingService.runPublish, List.get?_cons_succ, h]
          congr 2
          push_cast
          ring

/-- C9: across every run of `AlgoPublishPrice` from a fresh service, the
`i`-th emitted `AlgoStream` (0-based; the first tick has count 0) carries
visible quantity 1 000 000 when `i` is even and 2 000 000 when `i` is odd on
both the bid and the offer order, its hidden quantities always equal twice
the visible quantity, and the internal counter has been incremented exactly
once per tick (it ends at the number of ticks). -/
theorem C9_streaming_alternation (ps : List Price) (i : ℕ) (p : Price)
    (hp : ps.get? i = some p) :
    (AlgoStreamingService.init.runPublish ps).1.count_ = (ps.length : ℤ) ∧
    ∃ st, (AlgoStreamingService.init.runPublish ps).2.get? i = some st ∧
      st.price_stream_.bidOrder.visibleQuantity =
        (if i % 2 = 0 then 1000000 else 2000000) ∧
      st.price_stream_.offerOrder.visibleQuantity =
        (if i % 2 = 0 then 1000000 else 2000000) ∧
      st.price_stream_.bidOrder.hiddenQuantity =
        2 * st.price_stream_.bidOrder.visibleQuantity ∧
      st.price_stream_.offerOrder.hiddenQuantity =
        2 * st.price_stream_.offerOrder.visibleQuantity := by
  have hcount := runPublish_count ps AlgoStreamingService.init
  have hget := runPublish_get ps AlgoStreamingService.init i p hp
  have hinit : AlgoStreamingService.init.count_ = 0 := rfl
  rw [hinit] at hcount hget
  have hv : ((i : ℤ) % 2 + 1) * 1000000 =
      (if i % 2 = 0 then (1000000 : ℤ) else 2000000) := by
    rcases Nat.mod_two_eq_zero_or_one i with hpar | hpar
    · have h2 : (i : ℤ) % 2 = 0 := by omega
      rw [h2, if_pos hpar]
      norm_num
    · have h2 : (i : ℤ) % 2 = 1 := by omega
      rw [h2, if_neg (by omega)]
      norm_num
  refine ⟨by simpa using hcount,
    AlgoStreamingService.emitAt (0 + i) p, hget, ?_, ?_, ?_, ?_⟩ <;>
    simp [AlgoStreamingService.emitAt, hv, mul_comm]

/-- C9 witness: a two-tick run; the second tick (`i = 1`) is covered by the
theorem. -/
theorem C9_streaming_alternation_witness :
    ([⟨⟨"91282CFX4"⟩, 100, 0⟩, ⟨⟨"91282CFV8"⟩, 99, 0⟩] :
        List Price).get? 1 = some ⟨⟨"91282CFV8"⟩, 99, 0⟩ ∧
    ((AlgoStreamingService.init.runPublish
        [⟨⟨"91282CFX4"⟩, 100, 0⟩, ⟨⟨"91282CFV8"⟩, 99, 0⟩]).1.count_ =
      (([⟨⟨"91282CFX4"⟩, 100, 0⟩, ⟨⟨"91282CFV8"⟩, 99, 0⟩] :
          List Price).length : ℤ) ∧
    ∃ st, (AlgoStreamingService.init.runPublish
        [⟨⟨"91282CFX4"⟩, 100, 0⟩, ⟨⟨"91282CFV8"⟩, 99, 0⟩]).2.get? 1 =
          some st ∧
      st.price_stream_.bidOrder.visibleQuantity =
        (if 1 % 2 = 0 then 1000000 else 2000000) ∧
      st.price_stream_.offerOrder.visibleQuantity =
        (if 1 % 2 = 0 then 1000000 else 2000000) ∧
      st.price_stream_.bidOrder.hiddenQuantity =
        2 * st.price_stream_.bidOrder.visibleQuantity ∧
      st.price_stream_.offerOrder.hiddenQuantity =
        2 * st.price_stream_.offerOrder.visibleQuantity) :=
  ⟨rfl, C9_streaming_alternation
    [⟨⟨"91282CFX4"⟩, 100, 0⟩, ⟨⟨"91282CFV8"⟩, 99, 0⟩] 1
    ⟨⟨"91282CFV8"⟩, 99, 0⟩ rfl⟩

/-! ## C4: execution-to-trade round-robin booking -/

theorem ProcessAdd_fst (c : ℤ) (d : ExecutionOrder) :
    (ExecutionToTradeBookingListener.ProcessAdd c d).1 = c + 1 := rfl

theorem runProcessAdd_get (orders : List ExecutionOrder) :
    ∀ (c : ℤ) (i : ℕ) (d : ExecutionOrder), orders.get? i = some d →
      (ExecutionToTradeBookingListener.runProcessAdd c orders).2.get? i =
        some (ExecutionToTradeBookingListener.ProcessAdd (c + i) d).2 := by
  induction orders with
  | nil => intro c i d hd; simp at hd
  | cons o tl ih =>
      intro c i d hd
      cases i with
      | zero =>
          simp only [List.get?_cons_zero, Option.some.injEq] at hd
          subst hd
          simp [ExecutionToTradeBookingListener.runProcessAdd]
      | succ i =>
          simp only [List.get?_cons_succ] at hd
          have h := ih (ExecutionToTradeBookingListener.ProcessAdd c o).1 i d hd
          rw [ProcessAdd_fst] at h
          simp only [ExecutionToTradeBookingListener.runProcessAdd,
            List.get?_cons_succ]
          rw [ProcessAdd_fst, h]
          congr 3
          push_cast
          ring

/-- C4: in a run of `ExecutionToTradeBookingListener::ProcessAdd` from a
fresh listener (counter 0), the `k`-th received execution order
(`k = i + 1`, counted from 1) is synthesized into a trade booked to TRSY2
when `k mod 3 = 1`, TRSY3 when `k mod 3 = 2`, and TRSY1 when `k mod 3 = 0`;
its side is SELL for a BID pricing side and BUY for OFFER, its quantity is
the sum of visible and hidden quantities, and its trade id is the order
id. -/
theorem C4_round_robin_booking (orders : List ExecutionOrder) (i : ℕ)
    (d : ExecutionOrder) (hd : orders.get? i = some d) :
    (ExecutionToTradeBookingListener.runProcessAdd 0 orders).2.get? i =
      some ⟨d.product, d.orderId, d.price,
        (if ((i : ℤ) + 1) % 3 = 1 then "TRSY2"
         else if ((i : ℤ) + 1) % 3 = 2 then "TRSY3" else "TRSY1"),
        d.visibleQuantity + d.hiddenQuantity,
        (if d.side = .BID then .SELL else .BUY)⟩ := by
  have h := runProcessAdd_get orders 0 i d hd
  rw [h]
  simp only [ExecutionToTradeBookingListener.ProcessAdd, zero_add,
    Option.some.injEq]
  have h3 : ((i : ℤ) + 1) % 3 = 0 ∨ ((i : ℤ) + 1) % 3 = 1 ∨
      ((i : ℤ) + 1) % 3 = 2 := by omega
  rcases h3 with h3 | h3 | h3 <;> simp [h3]

/-- C4 witness: two orders; the theorem applies to the second one
(`k = 2`, booked to TRSY3). -/
theorem C4_round_robin_booking_witness :
    ([⟨⟨"91282CFX4"⟩, .BID, "ORD1", .MARKET, 100, 1000000, 0, "", false⟩,
      ⟨⟨"91282CFV8"⟩, .OFFER, "ORD2", .MARKET, 99, 2000000, 500000, "",
        false⟩] : List ExecutionOrder).get? 1 =
      some ⟨⟨"91282CFV8"⟩, .OFFER, "ORD2", .MARKET, 99, 2000000, 500000, "",
        false⟩ ∧
    (ExecutionToTradeBookingListener.runProcessAdd 0
      [⟨⟨"91282CFX4"⟩, .BID, "ORD1", .MARKET, 100, 1000000, 0, "", false⟩,
       ⟨⟨"91282CFV8"⟩, .OFFER, "ORD2", .MARKET, 99, 2000000, 500000, "",
         false⟩]).2.get? 1 =
      some ⟨(⟨"91282CFV8"⟩ : Bond), "ORD2", 99,
        (if (((1 : ℕ) : ℤ) + 1) % 3 = 1 then "TRSY2"
         else if (((1 : ℕ) : ℤ) + 1) % 3 = 2 then "TRSY3" else "TRSY1"),
        2000000 + 500000,
        (if (PricingSide.OFFER = .BID) then Side.SELL else .BUY)⟩ :=
  ⟨rfl, C4_round_robin_booking
    [⟨⟨"91282CFX4"⟩, .BID, "ORD1", .MARKET, 100, 1000000, 0, "", false⟩,
     ⟨⟨"91282CFV8"⟩, .OFFER, "ORD2", .MARKET, 99, 2000000, 500000, "",
       false⟩] 1
    ⟨⟨"91282CFV8"⟩, .OFFER, "ORD2", .MARKET, 99, 2000000, 500000, "", false⟩
    rfl⟩

/-! ## C6: GetData on a never-seen key -/

/-- C6 counterexample: `MarketDataService::GetData`,
`TradeBookingService::GetData` and `ExecutionService::GetData` use the
throwing `unordered_map::at` lookup, so on a fresh service a never-stored
key raises `std::out_of_range` (modelled `none`) instead of returning a
default-constructed value: behavior is not uniform across services as
claimed. -/
theorem C6_counterexample :
    MarketDataService.init.GetData "91282CFX4" = none ∧
    TradeBookingService.GetData [] "91282CFX4" = none ∧
    ExecutionService.GetData [] "91282CFX4" = none :=
  ⟨rfl, rfl, rfl⟩

/-- C6 (amended): for a key that was never stored, the services whose
`GetData` uses `operator[]` (Pricing, GUI, Inquiry) return a
default-constructed value, while MarketData, TradeBooking and Execution —
whose `GetData` uses `unordered_map::at` — raise an out-of-range error
(modelled `none`) instead. -/
theorem C6_missing_key (k : String)
    (pricing : PricingService) (hp : mapFind pricing.prices_ k = none)
    (gui : GUIService) (hg : mapFind gui.guis_ k = none)
    (inq : InquiryService) (hi : mapFind inq.inquiries_ k = none)
    (md : MarketDataService) (hm : mapFind md.order_books_ k = none)
    (tr : List (String × Trade)) (ht : mapFind tr k = none)
    (ex : List (String × ExecutionOrder)) (he : mapFind ex k = none) :
    pricing.GetData k = PricingService.cppDefault ∧
    gui.GetData k = PricingService.cppDefault ∧
    inq.GetData k = InquiryService.cppDefault ∧
    md.GetData k = none ∧
    TradeBookingService.GetData tr k = none ∧
    ExecutionService.GetData ex k = none := by
  refine ⟨?_, ?_, ?_, ?_, ?_, ?_⟩ <;>
    simp [PricingService.GetData, GUIService.GetData, InquiryService.GetData,
      MarketDataService.GetData, TradeBookingService.GetData,
      ExecutionService.GetData, mapBracket, mapAt, hp, hg, hi, hm, ht, he]

/-- C6 witness: fresh services and the key `91282CFX4`. -/
theorem C6_missing_key_witness :
    mapFind PricingService.init.prices_ "91282CFX4" = none ∧
    mapFind GUIService.init.guis_ "91282CFX4" = none ∧
    mapFind (⟨[]⟩ : InquiryService).inquiries_ "91282CFX4" = none ∧
    mapFind MarketDataService.init.order_books_ "91282CFX4" = none ∧
    (PricingService.init.GetData "91282CFX4" = PricingService.cppDefault ∧
     GUIService.init.GetData "91282CFX4" = PricingService.cppDefault ∧
     (⟨[]⟩ : InquiryService).GetData "91282CFX4" =
       InquiryService.cppDefault ∧
     MarketDataService.init.GetData "91282CFX4" = none ∧
     TradeBookingService.GetData [] "91282CFX4" = none ∧
     ExecutionService.GetData [] "91282CFX4" = none) :=
  ⟨rfl, rfl, rfl, rfl,
   C6_missing_key "91282CFX4" PricingService.init rfl GUIService.init rfl
     ⟨[]⟩ rfl MarketDataService.init rfl [] rfl [] rfl⟩

/-! ## C5: inquiry self-loop reaches DONE -/

/-- C5: for every inquiry arriving at `InquiryService::OnMessage` in state
`RECEIVED`, the service re-enters `OnMessage` exactly once through the
bidirectional connector (which rewrites the state to `QUOTED`); afterwards
the stored value under that inquiry id has state `DONE`, and each of the `n`
registered listeners has received exactly one `ProcessAdd` call carrying the
`DONE` inquiry. -/
theorem C5_inquiry_terminal (s : InquiryService) (n : ℕ) (data : Inquiry)
    (h : data.state = .RECEIVED) :
    s.OnMessage n data =
      (⟨insert_or_assign s.inquiries_ data.inquiryId
          { data with state := .DONE }⟩, 1,
       List.replicate n { data with state := .DONE }) ∧
    mapFind (s.OnMessage n data).1.inquiries_ data.inquiryId =
      some { data with state := .DONE } := by
  obtain ⟨id, prod, side, qty, price, st⟩ := data
  simp only at h
  subst h
  have hstep : InquiryService.OnMessage s n ⟨id, prod, side, qty, price, .RECEIVED⟩ =
      (⟨insert_or_assign s.inquiries_ id
          ⟨id, prod, side, qty, price, .DONE⟩⟩, 1,
       List.replicate n ⟨id, prod, side, qty, price, .DONE⟩) := by
    rw [InquiryService.OnMessage]
    simp only [InquiryService.Publish, InquiryService.OnMessage,
      insert_or_assign_insert_or_assign_self]
    simp
  refine ⟨hstep, ?_⟩
  rw [hstep]
  simp [mapFind_insert_or_assign_self]

/-- C5 witness: a concrete `RECEIVED` inquiry delivered to a fresh service
with one listener. -/
theorem C5_inquiry_terminal_witness :
    (⟨"INQ01", ⟨"91282CFX4"⟩, .BUY, 1000000, 100, .RECEIVED⟩ :
        Inquiry).state = .RECEIVED ∧
    ((⟨[]⟩ : InquiryService).OnMessage 1
        ⟨"INQ01", ⟨"91282CFX4"⟩, .BUY, 1000000, 100, .RECEIVED⟩ =
      (⟨insert_or_assign [] "INQ01"
          ⟨"INQ01", ⟨"91282CFX4"⟩, .BUY, 1000000, 100, .DONE⟩⟩, 1,
       List.replicate 1
         ⟨"INQ01", ⟨"91282CFX4"⟩, .BUY, 1000000, 100, .DONE⟩) ∧
     mapFind ((⟨[]⟩ : InquiryService).OnMessage 1
        ⟨"INQ01", ⟨"91282CFX4"⟩, .BUY, 1000000, 100, .RECEIVED⟩).1.inquiries_
        "INQ01" =
      some ⟨"INQ01", ⟨"91282CFX4"⟩, .BUY, 1000000, 100, .DONE⟩) :=
  ⟨rfl, C5_inquiry_terminal ⟨[]⟩ 1
    ⟨"INQ01", ⟨"91282CFX4"⟩, .BUY, 1000000, 100, .RECEIVED⟩ rfl⟩

/-! ## C7: GUI throttle -/

theorem normalizeMs_of_le {m millisec : ℤ} (h : millisec ≤ m) :
    GUIService.normalizeMs m millisec = m := by
  unfold GUIService.normalizeMs
  rw [if_neg (by omega)]

theorem OnMessage_throttle (s : GUIService) (m : ℤ) (p : Price)
    (log : List GuiLine) : (s.OnMessage m p log).1.throttle_ = s.throttle_ := by
  simp only [GUIService.OnMessage, GUIService.ConnectorPublish]
  split <;> rfl

theorem OnMessage_cases (s : GUIService) (m : ℤ) (p : Price)
    (log : List GuiLine) :
    ((s.OnMessage m p log).1.millisec_ = s.millisec_ ∧
      (s.OnMessage m p log).2 = log) ∨
    (∃ now, s.throttle_ ≤ now - s.millisec_ ∧
      (s.OnMessage m p log).1.millisec_ = now ∧
      (s.OnMessage m p log).2 = log ++ [⟨now, p⟩]) := by
  simp only [GUIService.OnMessage, GUIService.ConnectorPublish]
  split
  · right
    exact ⟨GUIService.normalizeMs m s.millisec_, by omega, rfl, rfl⟩
  · left
    exact ⟨rfl, rfl⟩

theorem run_chain (T : ℤ) (evs : List (ℤ × Price)) :
    ∀ (s : GUIService) (log : List GuiLine), s.throttle_ = T →
      log.Chain' (fun a b => a.emitMs + T ≤ b.emitMs) →
      (∀ l ∈ log.getLast?, l.emitMs ≤ s.millisec_) →
      (GUIService.run s log evs).2.Chain'
        (fun a b => a.emitMs + T ≤ b.emitMs) ∧
      (∀ l ∈ (GUIService.run s log evs).2.getLast?,
        l.emitMs ≤ (GUIService.run s log evs).1.millisec_) := by
  induction evs with
  | nil => intro s log hT hchain hlast; exact ⟨hchain, hlast⟩
  | cons ev tl ih =>
      obtain ⟨m, p⟩ := ev
      intro s log hT hchain hlast
      have hT' : ((s.OnMessage m p log).1).throttle_ = T := by
        rw [OnMessage_throttle, hT]
      rcases OnMessage_cases s m p log with ⟨hms, hlog⟩ | ⟨now, hcond, hms, hlog⟩
      · refine ih ((s.OnMessage m p log).1) ((s.OnMessage m p log).2) hT' ?_ ?_
        · rw [hlog]; exact hchain
        · rw [hlog, hms]; exact hlast
      · refine ih ((s.OnMessage m p log).1) ((s.OnMessage m p log).2) hT' ?_ ?_
        · rw [hlog, List.chain'_append]
          refine ⟨hchain, List.chain'_singleton _, ?_⟩
          intro a ha b hb
          simp only [List.head?_cons, Option.mem_def, Option.some.injEq] at hb
          subst hb
          have := hlast a ha
          rw [hT] at hcond
          dsimp only
          omega
        · intro l hl
          rw [hlog, List.getLast?_concat] at hl
          simp only [Option.mem_def, Option.some.injEq] at hl
          subst hl
          rw [hms]

/-- C7: over any run of the GUI pipeline from a fresh service (throttle
300 ms, `millisec_ = 0`) and an empty `gui.txt`, any two successive written
lines carry emission readings at least 300 ms apart; moreover, for a
monotonic reading `m` (at least the last recorded emission millisecond),
`GUIConnector::Publish` writes a line and records `m` as the new
last-emission millisecond iff `m` minus the last recorded emission
millisecond is at least the throttle, and otherwise leaves both the state
and the file untouched. -/
theorem C7_gui_throttle (evs : List (ℤ × Price)) (s : GUIService) (m : ℤ)
    (d : Price) (log : List GuiLine) (hm : s.millisec_ ≤ m) :
    (GUIService.run GUIService.init [] evs).2.Chain'
      (fun a b => a.emitMs + 300 ≤ b.emitMs) ∧
    (((s.ConnectorPublish m d log).2 = log ++ [⟨m, d⟩] ∧
        (s.ConnectorPublish m d log).1.millisec_ = m) ↔
      s.throttle_ ≤ m - s.millisec_) ∧
    (¬ s.throttle_ ≤ m - s.millisec_ →
      s.ConnectorPublish m d log = (s, log)) := by
  refine ⟨(run_chain 300 evs GUIService.init [] rfl (by simp)
    (by simp)).1, ?_, ?_⟩ <;>
    simp only [GUIService.ConnectorPublish, normalizeMs_of_le hm]
  · by_cases hc : s.throttle_ ≤ m - s.millisec_
    · rw [if_pos (by omega)]
      simp [hc]
    · rw [if_neg (by omega)]
      simp only [hc, iff_false, not_and]
      intro habs
      exact absurd habs (by simp)
  · intro hc
    rw [if_neg (by omega)]

/-- C7 witness: fresh service, reading 400 (≥ `millisec_ = 0`), empty log.
-/
theorem C7_gui_throttle_witness :
    GUIService.init.millisec_ ≤ 400 ∧
    ((GUIService.run GUIService.init [] [(400, ⟨⟨"91282CFX4"⟩, 100, 0⟩)]).2.Chain'
      (fun a b => a.emitMs + 300 ≤ b.emitMs) ∧
    (((GUIService.init.ConnectorPublish 400 ⟨⟨"91282CFX4"⟩, 100, 0⟩ []).2 =
        [] ++ [⟨400, ⟨⟨"91282CFX4"⟩, 100, 0⟩⟩] ∧
      (GUIService.init.ConnectorPublish 400
        ⟨⟨"91282CFX4"⟩, 100, 0⟩ []).1.millisec_ = 400) ↔
      GUIService.init.throttle_ ≤ 400 - GUIService.init.millisec_) ∧
    (¬ GUIService.init.throttle_ ≤ 400 - GUIService.init.millisec_ →
      GUIService.init.ConnectorPublish 400 ⟨⟨"91282CFX4"⟩, 100, 0⟩ [] =
        (GUIService.init, []))) :=
  ⟨by decide, C7_gui_throttle [(400, ⟨⟨"91282CFX4"⟩, 100, 0⟩)]
    GUIService.init 400 ⟨⟨"91282CFX4"⟩, 100, 0⟩ [] (by decide)⟩

/-! ## C1: MarketData subscribe book emission -/

theorem lastProductId_cons (r : DepthRecord) (w : List DepthRecord)
    (hw : w ≠ []) : lastProductId (r :: w) = lastProductId w := by
  match w, hw with
  | x :: xs, _ =>
      unfold lastProductId
      rw [List.getLast?_cons_cons]

theorem bidOrders_length_add (w : List DepthRecord) :
    (bidOrders w).length + (offerOrders w).length = w.length := by
  induction w with
  | nil => rfl
  | cons r rest ih =>
      by_cases h : r.side = .BID <;>
        simp [bidOrders, offerOrders, h] <;> omega

theorem SubscribeLoop_eq (R : ℕ) (recs : List DepthRecord) :
    ∀ (b o : List Order) (c : ℕ), c < R →
      MarketDataConnector.SubscribeLoop R b o c recs =
        if R - c ≤ recs.length then
          OrderBook.mk (FetchBond (lastProductId (recs.take (R - c))))
              (b ++ bidOrders (recs.take (R - c)))
              (o ++ offerOrders (recs.take (R - c))) ::
            MarketDataConnector.SubscribeLoop R [] [] 0 (recs.drop (R - c))
        else [] := by
  induction recs with
  | nil =>
      intro b o c hc
      rw [if_neg (by simp only [List.length_nil]; omega)]
      rfl
  | cons r rest ih =>
      intro b o c hc
      by_cases hemit : c + 1 = R
      · simp only [MarketDataConnector.SubscribeLoop, if_pos hemit]
        have h1 : R - c = 1 := by omega
        rw [h1, if_pos (by simp : 1 ≤ (r :: rest).length)]
        by_cases hside : r.side = .BID <;>
          simp [lastProductId, bidOrders, offerOrders, toOrder, hside]
      · simp only [MarketDataConnector.SubscribeLoop, if_neg hemit]
        rw [ih _ _ (c + 1) (by omega)]
        have hsub : R - c = (R - (c + 1)) + 1 := by omega
        by_cases hlen : R - (c + 1) ≤ rest.length
        · have hcond2 : R - c ≤ (r :: rest).length := by
            simp only [List.length_cons]
            omega
          rw [if_pos hlen, if_pos hcond2]
          have htake : (r :: rest).take (R - c) =
              r :: rest.take (R - (c + 1)) := by
            rw [hsub, List.take_succ_cons]
          have hdrop : (r :: rest).drop (R - c) = rest.drop (R - (c + 1)) := by
            rw [hsub, List.drop_succ_cons]
          rw [htake, hdrop]
          have hw : rest.take (R - (c + 1)) ≠ [] := by
            apply List.ne_nil_of_length_pos
            rw [List.length_take]
            omega
          rw [lastProductId_cons r _ hw]
          by_cases hside : r.side = .BID <;>
            simp [bidOrders, offerOrders, toOrder, hside]
        · have hcond2 : ¬ R - c ≤ (r :: rest).length := by
            simp only [List.length_cons]
            omega
          rw [if_neg hlen, if_neg hcond2]

theorem Subscribe_eq_chunks_aux (R : ℕ) (hR : 0 < R) :
    ∀ (n : ℕ) (recs : List DepthRecord), recs.length ≤ n →
      MarketDataConnector.SubscribeLoop R [] [] 0 recs =
        (fullChunks R recs).map mkBook := by
  intro n
  induction n with
  | zero =>
      intro recs h
      have : recs = [] := List.length_eq_zero.mp (by omega)
      subst this
      rw [fullChunks]
      rw [if_neg (by simp only [List.length_nil]; omega)]
      rfl
  | succ n ih =>
      intro recs h
      rw [SubscribeLoop_eq R recs [] [] 0 hR, fullChunks]
      by_cases hcond : R ≤ recs.length
      · rw [if_pos (by omega), if_pos ⟨hR, hcond⟩]
        simp only [List.map_cons, List.nil_append, Nat.sub_zero]
        congr 1
        exact ih (recs.drop R) (by simp only [List.length_drop]; omega)
      · rw [if_neg (by omega), if_neg (by push_neg; intro; omega)]
        simp

theorem Subscribe_eq_chunks (D : ℕ) (hD : 0 < D)
    (records : List DepthRecord) :
    MarketDataConnector.Subscribe D records =
      (fullChunks (D * 2) records).map mkBook :=
  Subscribe_eq_chunks_aux (D * 2) (by omega) records.length records le_rfl

theorem fullChunks_length_aux (R : ℕ) (hR : 0 < R) :
    ∀ (n : ℕ) (l : List DepthRecord), l.length ≤ n →
      (fullChunks R l).length = l.length / R := by
  intro n
  induction n with
  | zero =>
      intro l h
      have : l = [] := List.length_eq_zero.mp (by omega)
      subst this
      rw [fullChunks, if_neg (by simp only [List.length_nil]; omega)]
      simp
  | succ n ih =>
      intro l h
      rw [fullChunks]
      by_cases hcond : R ≤ l.length
      · rw [if_pos ⟨hR, hcond⟩]
        rw [List.length_cons, ih (l.drop R) (by simp only [List.length_drop]; omega)]
        rw [List.length_drop]
        rw [Nat.div_eq_sub_div hR hcond]
      · rw [if_neg (by push_neg; intro; omega)]
        simp only [List.length_nil]
        rw [Nat.div_eq_of_lt (by omega)]

theorem fullChunks_get_aux (R : ℕ) (hR : 0 < R) :
    ∀ (n : ℕ) (l : List DepthRecord), l.length ≤ n →
      ∀ i : ℕ, (fullChunks R l).get? i = some ((l.drop (R * i)).take R) ∨
        (fullChunks R l).get? i = none := by
  intro n
  induction n with
  | zero =>
      intro l h i
      right
      have : l = [] := List.length_eq_zero.mp (by omega)
      subst this
      rw [fullChunks, if_neg (by simp only [List.length_nil]; omega)]
      simp
  | succ n ih =>
      intro l h i
      rw [fullChunks]
      by_cases hcond : R ≤ l.length
      · rw [if_pos ⟨hR, hcond⟩]
        cases i with
        | zero =>
            left
            simp
        | succ i =>
            rcases ih (l.drop R) (by simp only [List.length_drop]; omega) i
              with hi | hi
            · left
              rw [List.get?_cons_succ, hi, List.drop_drop]
              congr 3
              ring
            · right
              rw [List.get?_cons_succ, hi]
      · rw [if_neg (by push_neg; intro; omega)]
        right
        simp

/-- C1 counterexample: with the default book depth 10, a window of 20
records that are all `BID` yields one emitted book (⌊20/20⌋ = 1, as the
claim's counting says), but that book has 20 bids and 0 offers — not 10 and
10 — so the stack sizes do depend on how BID and OFFER records are mixed in
the window. -/
theorem C1_counterexample :
    MarketDataService.init.book_depth_ = 10 ∧
    (MarketDataConnector.Subscribe 10
        (List.replicate 20 ⟨"91282CFX4", 100, 1000000, .BID⟩)).map
      (fun bk => (bk.bidStack.length, bk.offerStack.length)) = [(20, 0)] :=
  ⟨rfl, rfl⟩

/-- C1 (amended): a MarketData subscribe over `N` records with
`bookDepth = D` emits exactly `⌊N/2D⌋` books; the `i`-th emitted book
(0-based) is built from the `i`-th window of `2D` consecutive records, its
bid stack holding exactly the `BID` records of that window and its offer
stack exactly the `OFFER` records, in file order — so the two stacks have
`D` orders each iff the window contains exactly `D` `BID` records, and in
every case the stack sizes sum to `2D`. -/
theorem C1_book_emission (D : ℕ) (hD : 0 < D) (records : List DepthRecord)
    (i : ℕ) (b : OrderBook)
    (hb : (MarketDataConnector.Subscribe D records).get? i = some b) :
    (MarketDataConnector.Subscribe D records).length =
      records.length / (D * 2) ∧
    b.bidStack = bidOrders ((records.drop (D * 2 * i)).take (D * 2)) ∧
    b.offerStack = offerOrders ((records.drop (D * 2 * i)).take (D * 2)) ∧
    (bidOrders ((records.drop (D * 2 * i)).take (D * 2))).length +
      (offerOrders ((records.drop (D * 2 * i)).take (D * 2))).length =
      D * 2 := by
  have hR : 0 < D * 2 := by omega
  have hchunks := Subscribe_eq_chunks D hD records
  have hlen : (MarketDataConnector.Subscribe D records).length =
      records.length / (D * 2) := by
    rw [hchunks, List.length_map,
      fullChunks_length_aux (D * 2) hR records.length records le_rfl]
  refine ⟨hlen, ?_⟩
  have hi : i < records.length / (D * 2) := by
    rw [← hlen]
    exact List.get?_eq_some.mp hb |>.choose
  have hwin : (D * 2) * (i + 1) ≤ records.length := by
    have h2 := (Nat.le_div_iff_mul_le hR).mp
      (by omega : i + 1 ≤ records.length / (D * 2))
    rw [mul_comm]
    exact h2
  rw [Nat.mul_succ] at hwin
  rcases fullChunks_get_aux (D * 2) hR records.length records le_rfl i
    with hget | hget
  · rw [hchunks, List.get?_map, hget] at hb
    simp only [Option.map_some', Option.some.injEq] at hb
    subst hb
    have hwlen : ((records.drop (D * 2 * i)).take (D * 2)).length = D * 2 := by
      rw [List.length_take, List.length_drop]
      omega
    refine ⟨rfl, rfl, ?_⟩
    rw [bidOrders_length_add, hwlen]
  · rw [hchunks, List.get?_map, hget] at hb
    simp at hb

/-- C1 witness: twenty records (ten `BID`, then ten `OFFER`) at book depth
10 emit one book, covered by the amended theorem at `i = 0`. -/
theorem C1_book_emission_witness :
    (0 : ℕ) < 10 ∧
    (MarketDataConnector.Subscribe 10 C1records).get? 0 = some C1emitted ∧
    ((MarketDataConnector.Subscribe 10 C1records).length =
        C1records.length / (10 * 2) ∧
      C1emitted.bidStack =
        bidOrders ((C1records.drop (10 * 2 * 0)).take (10 * 2)) ∧
      C1emitted.offerStack =
        offerOrders ((C1records.drop (10 * 2 * 0)).take (10 * 2)) ∧
      (bidOrders ((C1records.drop (10 * 2 * 0)).take (10 * 2))).length +
        (offerOrders ((C1records.drop (10 * 2 * 0)).take (10 * 2))).length =
        10 * 2) :=
  ⟨by decide, rfl, C1_book_emission 10 (by decide) C1records 0 C1emitted rfl⟩

/-! ## C8: price notation codec round trip -/

theorem cppIntCast_eq_floor (q : ℚ) (hq : 0 ≤ q) : cppIntCast q = ⌊q⌋ := by
  unfold cppIntCast
  rw [if_neg (not_lt.mpr hq)]

theorem floor_add_small (n : ℤ) (x : ℚ) (h0 : 0 ≤ x) (h1 : x < 1) :
    ⌊(n : ℚ) + x⌋ = n := by
  rw [Int.floor_int_add, Int.floor_eq_zero_iff.mpr (by exact ⟨h0, h1⟩)]
  omega

theorem ConvertPriceFromNumber_format (a b c : ℕ) (ha : 1 ≤ a)
    (hb : b < 32) (hc : c < 8) :
    ConvertPriceFromNumber ((a : ℚ) + (b : ℚ) / 32 + (c : ℚ) / 256) =
      to_string (a : ℤ) ++ ['-'] ++
        (if ((b : ℤ)) < 10 then ['0'] else []) ++ to_string (b : ℤ) ++
        (if ((c : ℤ)) = 4 then ['+'] else to_string (c : ℤ)) := by
  have hbq : (b : ℚ) ≤ 31 := by exact_mod_cast Nat.le_of_lt_succ hb
  have hcq : (c : ℚ) ≤ 7 := by exact_mod_cast Nat.le_of_lt_succ hc
  have hbq0 : (0 : ℚ) ≤ (b : ℚ) := by positivity
  have hcq0 : (0 : ℚ) ≤ (c : ℚ) := by positivity
  have hfloor1 : cppIntCast ((a : ℚ) + (b : ℚ) / 32 + (c : ℚ) / 256) =
      (a : ℤ) := by
    rw [cppIntCast_eq_floor _ (by positivity)]
    rw [show (a : ℚ) + (b : ℚ) / 32 + (c : ℚ) / 256 =
      ((a : ℤ) : ℚ) + ((b : ℚ) / 32 + (c : ℚ) / 256) by push_cast; ring]
    exact floor_add_small _ _ (by positivity) (by
      rw [div_add_div _ _ (by norm_num) (by norm_num)]
      rw [div_lt_one (by norm_num)]
      linarith)
  have harg2 : ((a : ℚ) + (b : ℚ) / 32 + (c : ℚ) / 256 - ((a : ℤ) : ℚ)) * 32 =
      (b : ℚ) + (c : ℚ) / 8 := by push_cast; ring
  have hfloor2 : cppIntCast ((b : ℚ) + (c : ℚ) / 8) = (b : ℤ) := by
    rw [cppIntCast_eq_floor _ (by positivity)]
    rw [show (b : ℚ) + (c : ℚ) / 8 = ((b : ℤ) : ℚ) + (c : ℚ) / 8 by push_cast; ring]
    exact floor_add_small _ _ (by positivity) (by
      rw [div_lt_one (by norm_num)]
      linarith)
  have harg3 : ((b : ℚ) + (c : ℚ) / 8 - ((b : ℤ) : ℚ)) * 8 = (c : ℚ) := by
    push_cast; ring
  have hfloor3 : cppIntCast ((c : ℚ)) = (c : ℤ) := by
    rw [cppIntCast_eq_floor _ (by positivity)]
    rw [show (c : ℚ) = ((c : ℤ) : ℚ) by push_cast; ring]
    exact Int.floor_intCast _
  simp only [ConvertPriceFromNumber, hfloor1, harg2, hfloor2, harg3, hfloor3]

theorem find_append_dash (A : List Char) (hA : '-' ∉ A) (t : List Char) :
    find (A ++ '-' :: t) '-' = A.length := by
  induction A with
  | nil => simp [find]
  | cons x A' ih =>
      have hx : ¬ x = '-' := by
        intro h
        exact hA (by simp [h])
      have hA' : '-' ∉ A' := fun h => hA (by simp [h])
      simp [find, hx, ih hA']
      omega

theorem ConvertPriceFromString_shape (A : List Char) (hA : '-' ∉ A)
    (b2 : List Char) (hb2 : b2.length = 2) (cc : Char) :
    ConvertPriceFromString (A ++ '-' :: (b2 ++ [cc])) =
      (stoi A : ℚ) + (stoi b2 : ℚ) / 32 +
        (if cc = '+' then (1 : ℚ) / 64
         else (((cc.toNat : ℤ) - ('0'.toNat : ℤ) : ℤ) : ℚ) / 256) := by
  have hfind : find (A ++ '-' :: (b2 ++ [cc])) '-' = A.length :=
    find_append_dash A hA _
  have hsub0 : substr (A ++ '-' :: (b2 ++ [cc])) 0 A.length = A := by
    unfold substr
    rw [List.drop_zero, List.take_left]
  have hsub1 : substr (A ++ '-' :: (b2 ++ [cc])) (A.length + 1) 2 = b2 := by
    unfold substr
    rw [show A.length + 1 = (A ++ ['-']).length by simp]
    rw [show A ++ '-' :: (b2 ++ [cc]) = (A ++ ['-']) ++ (b2 ++ [cc]) by simp]
    rw [List.drop_left, List.take_left' hb2]
  have hgetD : (A ++ '-' :: (b2 ++ [cc])).getD (A.length + 3) (Char.ofNat 0) =
      cc := by
    unfold List.getD
    rw [List.get?_append_right (by omega)]
    have h3 : A.length + 3 - A.length = 3 := by omega
    rw [h3]
    rw [show ('-' :: (b2 ++ [cc]) : List Char) = ('-' :: b2) ++ [cc] by simp]
    rw [List.get?_append_right (by simp [hb2])]
    simp [hb2]
  simp only [ConvertPriceFromString]
  rw [hfind, hsub0, hsub1, hgetD]
  by_cases hcc : cc = '+'
  · rw [if_pos hcc, if_pos hcc]
  · rw [if_neg hcc, if_neg hcc]
    push_cast
    ring

theorem stoi_to_string_a (a' : ℕ) (ha : a' ≤ 2) :
    stoi (to_string ((99 + a' : ℕ) : ℤ)) = ((99 + a' : ℕ) : ℤ) ∧
    '-' ∉ to_string ((99 + a' : ℕ) : ℤ) := by
  interval_cases a' <;> exact ⟨by decide, by decide⟩

theorem b2_spec (b : ℕ) (hb : b < 32) :
    ((if ((b : ℤ)) < 10 then ['0'] else []) ++ to_string (b : ℤ)).length = 2 ∧
    stoi ((if ((b : ℤ)) < 10 then ['0'] else []) ++ to_string (b : ℤ)) =
      (b : ℤ) := by
  interval_cases b <;> exact ⟨by decide, by decide⟩

theorem last_char_cases (c : ℕ) (hc : c < 8) :
    (c = 4 ∧
      (if ((c : ℤ)) = 4 then (['+'] : List Char) else to_string (c : ℤ)) =
        ['+']) ∨
    (∃ ch,
      (if ((c : ℤ)) = 4 then (['+'] : List Char) else to_string (c : ℤ)) =
        [ch] ∧ ¬ ch = '+' ∧ ch.toNat = 48 + c) := by
  interval_cases c
  · exact Or.inr ⟨'0', by decide, by decide, by decide⟩
  · exact Or.inr ⟨'1', by decide, by decide, by decide⟩
  · exact Or.inr ⟨'2', by decide, by decide, by decide⟩
  · exact Or.inr ⟨'3', by decide, by decide, by decide⟩
  · exact Or.inl ⟨rfl, by decide⟩
  · exact Or.inr ⟨'5', by decide, by decide, by decide⟩
  · exact Or.inr ⟨'6', by decide, by decide, by decide⟩
  · exact Or.inr ⟨'7', by decide, by decide, by decide⟩

theorem roundtrip_abc (a' b c : ℕ) (ha : a' ≤ 2) (hb : b < 32)
    (hc : c < 8) :
    ConvertPriceFromString (ConvertPriceFromNumber
      (((99 + a' : ℕ) : ℚ) + (b : ℚ) / 32 + (c : ℚ) / 256)) =
      ((99 + a' : ℕ) : ℚ) + (b : ℚ) / 32 + (c : ℚ) / 256 := by
  rw [ConvertPriceFromNumber_format (99 + a') b c (by omega) hb hc]
  obtain ⟨hstoiA, hdashA⟩ := stoi_to_string_a a' ha
  obtain ⟨hlen2, hstoib2⟩ := b2_spec b hb
  rcases last_char_cases c hc with ⟨hc4, hlast⟩ | ⟨ch, hlast, hchne, hchval⟩
  · rw [hlast]
    rw [show to_string ((99 + a' : ℕ) : ℤ) ++ ['-'] ++
          (if ((b : ℤ)) < 10 then ['0'] else []) ++ to_string (b : ℤ) ++
          ['+'] =
        to_string ((99 + a' : ℕ) : ℤ) ++ '-' ::
          (((if ((b : ℤ)) < 10 then ['0'] else []) ++ to_string (b : ℤ)) ++
            ['+']) by simp]
    rw [ConvertPriceFromString_shape _ hdashA _ hlen2 '+']
    rw [hstoiA, hstoib2, if_pos rfl, hc4]
    push_cast
    norm_num
  · rw [hlast]
    rw [show to_string ((99 + a' : ℕ) : ℤ) ++ ['-'] ++
          (if ((b : ℤ)) < 10 then ['0'] else []) ++ to_string (b : ℤ) ++
          [ch] =
        to_string ((99 + a' : ℕ) : ℤ) ++ '-' ::
          (((if ((b : ℤ)) < 10 then ['0'] else []) ++ to_string (b : ℤ)) ++
            [ch]) by simp]
    rw [ConvertPriceFromString_shape _ hdashA _ hlen2 ch]
    rw [hstoiA, hstoib2, if_neg hchne, hchval]
    push_cast
    ring

/-- C8: for every price on the `1/256` grid in `[99, 101]` — that is,
`p = 99 + k/256` with `k ≤ 512` — converting `p` to `"aaa-bbc"` bond
notation with `ConvertPrice(float)` and parsing the result back with
`ConvertPrice(const string&)` yields exactly `p` ('+' denoting 4/8 of a
32nd).  Every intermediate float value is exactly representable, so the
rational embedding is bit-identical to the C++ arithmetic on this grid. -/
theorem C8_price_codec (k : ℕ) (hk : k ≤ 512) :
    ConvertPriceFromString (ConvertPriceFromNumber (99 + (k : ℚ) / 256)) =
      99 + (k : ℚ) / 256 := by
  have hk' : k = 256 * (k / 256) + 8 * (k % 256 / 8) + k % 256 % 8 := by
    omega
  have hcast : (k : ℚ) = 256 * ((k / 256 : ℕ) : ℚ) +
      8 * ((k % 256 / 8 : ℕ) : ℚ) + ((k % 256 % 8 : ℕ) : ℚ) := by
    exact_mod_cast congrArg (fun n : ℕ => (n : ℚ)) hk'
  have hdecomp : (99 + (k : ℚ) / 256) =
      ((99 + k / 256 : ℕ) : ℚ) + ((k % 256 / 8 : ℕ) : ℚ) / 32 +
        ((k % 256 % 8 : ℕ) : ℚ) / 256 := by
    rw [hcast]
    push_cast
    ring
  rw [hdecomp]
  exact roundtrip_abc (k / 256) (k % 256 / 8) (k % 256 % 8) (by omega)
    (by omega) (by omega)

/-- C8 witness: the theorem applied at `k = 129`
(price `99 + 129/256 = 99-201` in bond notation). -/
theorem C8_price_codec_witness :
    129 ≤ 512 ∧
    ConvertPriceFromString
        (ConvertPriceFromNumber (99 + ((129 : ℕ) : ℚ) / 256)) =
      99 + ((129 : ℕ) : ℚ) / 256 :=
  ⟨by decide, C8_price_codec 129 (by decide)⟩

end TradingSystem
